import Mathlib

/-!
Shallow embedding of `scripts/coverage.py`, a test-coverage scanner for
declarative geometry files, together with proofs about its behaviour.

Strings are modelled as `List Char`.  `str.strip()` is modelled over the
ASCII whitespace characters recognised by Python's `str.strip` (space, tab,
newline, carriage return, vertical tab, form feed).  Python's stable sort
(`sorted`) is modelled by a stable insertion sort.  The script's standard
output is modelled as a `List String`, one element per `print` call; the
final percentage interpolation, which divides by the total item count, is
modelled by returning a `Bool` that is `false` exactly when the division
faults (total count zero), in which case the final line is not emitted.
-/

namespace Coverage

abbrev Name := List Char

/-- The two declaration kinds tracked by the script (`item_type`). -/
inductive ItemKind where
  | module : ItemKind
  | function : ItemKind
deriving DecidableEq, Repr

/-- A registry entry: `(filename, linenum+1, item_type)` as stored in the
Python dicts `items`, `covered`, `uncovered`. -/
structure Entry where
  file : Name
  line : Nat
  kind : ItemKind
deriving DecidableEq, Repr

/-- Insertion-ordered association list modelling a Python `dict` keyed by
declaration name. -/
abbrev Registry := List (Name × Entry)

/-- Test whether `p` is a prefix of `s` (Python `s.startswith(p)`). -/
def isPrefixL : List Char → List Char → Bool
  | [], _ => true
  | _ :: _, [] => false
  | p :: ps, c :: cs => p == c && isPrefixL ps cs

/-- Test whether `p` is a suffix of `s` (Python `s.endswith(p)`). -/
def endsWithL (p s : List Char) : Bool :=
  isPrefixL p.reverse s.reverse

/-- Characters stripped by Python's `str.strip()` (ASCII fragment). -/
def isPySpace (c : Char) : Bool :=
  c == ' ' || c == '\t' || c == '\n' || c == '\r' || c == '\x0b' || c == '\x0c'

/-- Python `s.strip()`. -/
def pyStrip (s : List Char) : List Char :=
  ((s.dropWhile isPySpace).reverse.dropWhile isPySpace).reverse

/-- Identifier extraction `line[k:].strip().split("(")[0].strip()`, applied to the text `rest`
after the marker token: strip, cut at the first `(`, strip again. -/
def extractName (rest : List Char) : List Char :=
  pyStrip ((pyStrip rest).takeWhile (fun c => c != '('))

/-- Everything after the first underscore, i.e. `s.split("_", 1)[1]`;
`none` when the string has no underscore (where Python would raise
`IndexError`, which is unreachable under the `test_`-prefix guard). -/
def afterFirstUnderscore : List Char → Option (List Char)
  | [] => none
  | c :: cs => if c == '_' then some cs else afterFirstUnderscore cs

/-- Dict lookup `d[k]` on the association-list model. -/
def lookupKey : Registry → Name → Option Entry
  | [], _ => none
  | p :: ps, k => if p.1 == k then some p.2 else lookupKey ps k

/-- Dict deletion `del d[k]`: removes the (unique) binding of `k`. -/
def removeKey : Registry → Name → Registry
  | [], _ => []
  | p :: ps, k => if p.1 == k then ps else p :: removeKey ps k

/-- Python `item_type.capitalize()`. -/
def capKind : ItemKind → String
  | .module => "Module"
  | .function => "Function"

/-- The lower-case kind text used in the report body. -/
def kindStr : ItemKind → String
  | .module => "module"
  | .function => "function"

def moduleTok : List Char := "module ".data
def functionTok : List Char := "function ".data
def testTok : List Char := "test_".data
def scadExt : List Char := ".scad".data
def underscoreTok : List Char := "_".data

/-- First line of the duplicate-definition warning. -/
def dupWarn1 (k : ItemKind) (n : Name) (f : Name) (ln : Nat) : String :=
  "WARNING!!! " ++ capKind k ++ " " ++ String.mk n ++ " re-defined at " ++
    String.mk f ++ ":" ++ toString ln

/-- Second line of the duplicate-definition warning. -/
def dupWarn2 (f : Name) (ln : Nat) : String :=
  "           Previously defined at " ++ String.mk f ++ ":" ++ toString ln

/-- First line of the naming-convention mismatch warning. -/
def misWarn1 (k : ItemKind) (n : Name) (f : Name) (ln : Nat) : String :=
  "WARNING!!! " ++ capKind k ++ " " ++ String.mk n ++ " defined at " ++
    String.mk f ++ ":" ++ toString ln

/-- Second line of the naming-convention mismatch warning. -/
def misWarn2 (f : Name) (ln : Nat) : String :=
  "           but tested at " ++ String.mk f ++ ":" ++ toString ln

/-- One iteration of the declaration-collector loop body on a source line
(0-based index `i`, so the recorded line number is `i+1`).  Returns the
updated registry and the warning lines printed by this iteration. -/
def collectLine (items : Registry) (fname : Name) (i : Nat) (line : Name) :
    Registry × List String :=
  if isPrefixL moduleTok line || isPrefixL functionTok line then
    let is_module := isPrefixL moduleTok line
    let itemname := extractName (line.drop (if is_module then 7 else 9))
    if isPrefixL underscoreTok itemname then (items, [])
    else
      let item_type := if is_module then ItemKind.module else ItemKind.function
      match lookupKey items itemname with
      | some prev =>
          (items, [dupWarn1 item_type itemname fname (i + 1),
                   dupWarn2 prev.file prev.line])
      | none => (items ++ [(itemname, ⟨fname, i + 1, item_type⟩)], [])
  else (items, [])

/-- The collector loop over the (enumerated) lines of one source file. -/
def collectLines (items : Registry) (out : List String) (fname : Name)
    (i : Nat) : List Name → Registry × List String
  | [] => (items, out)
  | l :: ls =>
      let st := collectLine items fname i l
      collectLines st.1 (out ++ st.2) fname (i + 1) ls

/-- The collector over the whole source directory: only files ending in
`.scad` are scanned, in listing order. -/
def collectAll (srcFiles : List (Name × List Name)) : Registry × List String :=
  (srcFiles.filter (fun f => endsWithL scadExt f.1)).foldl
    (fun st f => collectLines st.1 st.2 f.1 0 f.2) ([], [])

/-- The declaration registry (`items`) produced from a source directory. -/
def itemsOf (srcFiles : List (Name × List Name)) : Registry :=
  (collectAll srcFiles).1

/-- The duplicate warnings printed while collecting. -/
def collectOut (srcFiles : List (Name × List Name)) : List String :=
  (collectAll srcFiles).2

/-- State of the test-correlation phase: the dicts `covered` and
`uncovered`, and the output printed so far. -/
structure CState where
  covered : Registry
  uncovered : Registry
  out : List String
deriving DecidableEq, Repr

/-- The target declaration name recovered from a test-module name:
`testmodule.split("_", 1)[1]` (the guard `testmodule.startswith("test_")`
makes the underscore present, so the default is unreachable). -/
def targetName (testmodule : Name) : Name :=
  (afterFirstUnderscore testmodule).getD []

/-- One iteration of the test-correlator loop body on a test-file line. -/
def correlateLine (st : CState) (fname : Name) (i : Nat) (line : Name) :
    CState :=
  if isPrefixL moduleTok line then
    let testmodule := extractName (line.drop 7)
    if isPrefixL testTok testmodule then
      let itemname := targetName testmodule
      match lookupKey st.uncovered itemname with
      | some e =>
          let warns :=
            if fname == testTok ++ e.file then []
            else [misWarn1 e.kind itemname e.file e.line,
                  misWarn2 fname (i + 1)]
          { covered := st.covered ++ [(itemname, ⟨fname, i + 1, e.kind⟩)]
            uncovered := removeKey st.uncovered itemname
            out := st.out ++ warns }
      | none => st
    else st
  else st

/-- The correlator loop over the (enumerated) lines of one test file. -/
def correlateLines (st : CState) (fname : Name) (i : Nat) :
    List Name → CState
  | [] => st
  | l :: ls => correlateLines (correlateLine st fname i l) fname (i + 1) ls

/-- The correlator over the whole test directory: only files that start
with `test_` and end in `.scad` are scanned, in listing order. -/
def correlateAll (items : Registry) (out0 : List String)
    (testFiles : List (Name × List Name)) : CState :=
  (testFiles.filter
      (fun f => isPrefixL testTok f.1 && endsWithL scadExt f.1)).foldl
    (fun st f => correlateLines st f.1 0 f.2)
    { covered := [], uncovered := items, out := out0 }

/-- The correlation state after both scanning phases. -/
def corrOf (srcFiles testFiles : List (Name × List Name)) : CState :=
  correlateAll (itemsOf srcFiles) (collectOut srcFiles) testFiles

/-- The `covered` dict after correlation. -/
def coveredOf (srcFiles testFiles : List (Name × List Name)) : Registry :=
  (corrOf srcFiles testFiles).covered

/-- The `uncovered` dict after correlation. -/
def uncoveredOf (srcFiles testFiles : List (Name × List Name)) : Registry :=
  (corrOf srcFiles testFiles).uncovered

/-- Lexicographic code-point order on strings, Python's `<=` used by
`sorted` on names. -/
def leL : List Char → List Char → Bool
  | [], _ => true
  | _ :: _, [] => false
  | a :: as, b :: bs =>
      if a.toNat < b.toNat then true
      else if b.toNat < a.toNat then false
      else leL as bs

/-- Stable insertion of `a` into `l`: `a` goes after every element `b`
with `le b a` (so equal elements keep their original order). -/
def stableInsert (le : α → α → Bool) (a : α) : List α → List α
  | [] => [a]
  | b :: bs => if le b a then b :: stableInsert le a bs else a :: b :: bs

/-- Python's `sorted`, modelled as a stable insertion sort. -/
def pySorted (le : α → α → Bool) (l : List α) : List α :=
  l.foldl (fun acc x => stableInsert le x acc) []

/-- A per-file group of uncovered items, in insertion order
(`uncovered_by_file`): the file name and its `(itemname, item_type)` list. -/
abbrev Groups := List (Name × List (Name × ItemKind))

/-- Append an item to a file's group, creating the group at the end on
first use (the Python `dict`-of-lists idiom). -/
def addToGroup : Groups → Name → Name × ItemKind → Groups
  | [], f, it => [(f, [it])]
  | g :: gs, f, it =>
      if g.1 == f then (g.1, g.2 ++ [it]) :: gs else g :: addToGroup gs f it

/-- Group lookup `uncovered_by_file[filename]`. -/
def lookupGroup : Groups → Name → Option (List (Name × ItemKind))
  | [], _ => none
  | g :: gs, f => if g.1 == f then some g.2 else lookupGroup gs f

/-- The dict `uncovered_by_file`, built by iterating the uncovered names in sorted
order (the `None` arm is unreachable: the names iterated are the keys). -/
def buildGroups (uncovered : Registry) : Groups :=
  (pySorted leL (uncovered.map Prod.fst)).foldl
    (fun ubf n =>
      match lookupKey uncovered n with
      | some e => addToGroup ubf e.file (n, e.kind)
      | none => ubf)
    []

/-- The `(count, filename)` pairs (`mostest`). -/
def mostestOf (ubf : Groups) : List (Nat × Name) :=
  ubf.map (fun g => (g.2.length, g.1))

/-- Python `sorted(mostest, key=operator.itemgetter(0))`: stable sort by count. -/
def sortedMostest (ubf : Groups) : List (Nat × Name) :=
  pySorted (fun a b => Nat.ble a.1 b.1) (mostestOf ubf)

/-- The group summary line `  <file>: <count> uncovered items`. -/
def groupHeader (f : Name) (cnt : Nat) : String :=
  "  " ++ String.mk f ++ ": " ++ toString cnt ++ " uncovered items"

/-- The per-item line `    <kind> <name>`. -/
def itemLine (k : ItemKind) (n : Name) : String :=
  "    " ++ kindStr k ++ " " ++ String.mk n

/-- The body of the uncovered-items section, one block per sorted group. -/
def emitGroups (ubf : Groups) : List (Nat × Name) → List String
  | [] => []
  | p :: ps =>
      groupHeader p.2 p.1 ::
        (((lookupGroup ubf p.2).getD []).map (fun it => itemLine it.2 it.1) ++
          emitGroups ubf ps)

/-- Two-decimal rendering of the aggregate percentage `100*cov/tot`,
modelled with exact rational round-half-to-even.  The source computes
`100.0 * covitems / totitems` in binary floating point; the two agree
whenever the quotient is exactly representable (in particular on every
concrete instance considered here). -/
def pctString (cov tot : Nat) : String :=
  let num := 10000 * cov
  let q := num / tot
  let r := num % tot
  let h :=
    if 2 * r < tot then q
    else if tot < 2 * r then q + 1
    else if q % 2 == 0 then q else q + 1
  toString (h / 100) ++ "." ++
    (if h % 100 < 10 then "0" ++ toString (h % 100) else toString (h % 100))

/-- The aggregate line `Total coverage: <cov> of <tot> items (<pct>%)`. -/
def totalLine (cov tot : Nat) : String :=
  "Total coverage: " ++ toString cov ++ " of " ++ toString tot ++
    " items (" ++ pctString cov tot ++ "%)"

/-- The whole program on a source and a test directory listing (each a
list of `(filename, lines)`): returns the printed output and `true` for
normal termination, `false` for the division-by-zero fault that aborts
the final `print` when the registry is empty. -/
def runProgram (srcFiles testFiles : List (Name × List Name)) :
    List String × Bool :=
  let st := corrOf srcFiles testFiles
  let ubf := buildGroups st.uncovered
  let report := st.out ++ ["NOT COVERED:"] ++ emitGroups ubf (sortedMostest ubf)
  let totitems := (itemsOf srcFiles).length
  let covitems := st.covered.length
  if totitems == 0 then (report, false)
  else (report ++ [totalLine covitems totitems], true)

/-! Concrete directory listings used by the example-driven properties. -/

/-- Source directory with one file `shapes.scad`: `module box(...)` on
line 3 and `function area(...)` on line 10. -/
def shapesSrc : List (Name × List Name) :=
  [("shapes.scad".data,
    ["// shapes".data, "".data, "module box(size)".data, "// end".data,
     "".data, "".data, "".data, "".data, "".data,
     "function area(r) = r * r;".data])]

/-- Test directory with one file `test_shapes.scad`: `module test_box(...)`
on line 2. -/
def shapesTst : List (Name × List Name) :=
  [("test_shapes.scad".data,
    ["// tests".data, "module test_box()".data])]

/-- Source directory whose only declaration line is `module (...)`,
yielding the empty-string identifier. -/
def nonameSrc : List (Name × List Name) :=
  [("noname.scad".data, ["module (...)".data])]

/-- Test directory whose only test line is `module test_(...)`, targeting
the empty-string identifier. -/
def nonameTst : List (Name × List Name) :=
  [("test_noname.scad".data, ["module test_(...)".data])]

/-! Helper lemmas. -/

theorem isPrefixL_append (p t : List Char) : isPrefixL p (p ++ t) = true := by
  induction p with
  | nil => rfl
  | cons c cs ih => simp [isPrefixL, ih]

theorem exists_of_isPrefixL {p s : List Char} (h : isPrefixL p s = true) :
    ∃ t, s = p ++ t := by
  induction p generalizing s with
  | nil => exact ⟨s, rfl⟩
  | cons c cs ih =>
      cases s with
      | nil => simp [isPrefixL] at h
      | cons b bs =>
          simp only [isPrefixL, Bool.and_eq_true, beq_iff_eq] at h
          obtain ⟨t, ht⟩ := ih h.2
          exact ⟨t, by simp [h.1, ht]⟩

/-- Claim C3: on the `shapes.scad` / `test_shapes.scad` example, `box` is
covered by `test_shapes.scad:2` with no mismatch warning, `area` stays
uncovered, and the aggregate line reads `Total coverage: 1 of 2 items
(50.00%)` before normal termination. -/
theorem C3_shapes_example :
    runProgram shapesSrc shapesTst =
      (["NOT COVERED:", "  shapes.scad: 1 uncovered items",
        "    function area", "Total coverage: 1 of 2 items (50.00%)"],
        true) ∧
    lookupKey (coveredOf shapesSrc shapesTst) "box".data =
      some ⟨"test_shapes.scad".data, 2, .module⟩ ∧
    lookupKey (uncoveredOf shapesSrc shapesTst) "area".data =
      some ⟨"shapes.scad".data, 10, .function⟩ ∧
    (itemsOf shapesSrc).length = 2 := by
  refine ⟨?_, ?_, ?_, ?_⟩ <;> decide

theorem afterFirstUnderscore_testTok (t : List Char) :
    afterFirstUnderscore (testTok ++ t) = some t := by
  show afterFirstUnderscore ('t' :: 'e' :: 's' :: 't' :: '_' :: t) = some t
  simp [afterFirstUnderscore]

/-- Claim C6: for any test-module name with the `test_` prefix, the target
name computed by splitting at the first underscore is exactly the
remainder after the leading `test_` token (its first five characters). -/
theorem C6_target_name (tm : Name) (h : isPrefixL testTok tm = true) :
    afterFirstUnderscore tm = some (tm.drop 5) ∧ targetName tm = tm.drop 5 := by
  obtain ⟨t, rfl⟩ := exists_of_isPrefixL h
  have hd : (testTok ++ t).drop 5 = t := rfl
  rw [hd]
  exact ⟨afterFirstUnderscore_testTok t,
    by simp [targetName, afterFirstUnderscore_testTok t]⟩

/-- Witness for `C6_target_name` at the test module `test_foo_bar`. -/
theorem C6_target_name_witness :
    isPrefixL testTok "test_foo_bar".data = true ∧
      targetName "test_foo_bar".data = "foo_bar".data :=
  ⟨by decide, ((C6_target_name "test_foo_bar".data (by decide)).2).trans (by decide)⟩

theorem getLast?_cons_concat (x : α) (l : List α) (a : α) :
    (x :: (l ++ [a])).getLast? = some a := by
  rw [show x :: (l ++ [a]) = (x :: l) ++ [a] from rfl, List.getLast?_concat]

/-- Claim C1: the run faults (returns `false`) exactly when the registry is
empty, and on every run with a nonempty registry it terminates normally
with the aggregate line as the last printed line. -/
theorem C1_zero_division_termination (src tst : List (Name × List Name)) :
    (runProgram src tst).2 = !(itemsOf src).isEmpty ∧
    ((itemsOf src).isEmpty = false →
      (runProgram src tst).1.getLast? =
        some (totalLine (coveredOf src tst).length (itemsOf src).length)) := by
  cases h : itemsOf src with
  | nil => simp [runProgram, h]
  | cons a l =>
      refine ⟨by simp [runProgram, h], fun _ => ?_⟩
      simp [runProgram, h, coveredOf, getLast?_cons_concat]

/-- Witness for `C1_zero_division_termination` on the `shapes` example. -/
theorem C1_zero_division_termination_witness :
    (itemsOf shapesSrc).isEmpty = false ∧
      (runProgram shapesSrc shapesTst).1.getLast? =
        some (totalLine (coveredOf shapesSrc shapesTst).length
          (itemsOf shapesSrc).length) :=
  ⟨by decide,
    (C1_zero_division_termination shapesSrc shapesTst).2 (by decide)⟩

theorem lookupKey_mem {r : Registry} {n : Name} {e : Entry}
    (h : lookupKey r n = some e) : (n, e) ∈ r := by
  induction r with
  | nil => simp [lookupKey] at h
  | cons p ps ih =>
      rw [lookupKey] at h
      split at h
      · next heq =>
          have h1 : p.1 = n := by simpa using heq
          have h2 : p.2 = e := by simpa using h
          exact List.mem_cons.mpr (Or.inl (by cases p; simp_all))
      · exact List.mem_cons_of_mem _ (ih h)

theorem mem_removeKey {r : Registry} {k : Name} {p : Name × Entry}
    (h : p ∈ removeKey r k) : p ∈ r := by
  induction r with
  | nil => simp [removeKey] at h
  | cons q qs ih =>
      rw [removeKey] at h
      split at h
      · exact List.mem_cons_of_mem _ h
      · rcases List.mem_cons.mp h with h1 | h2
        · simp [h1]
        · exact List.mem_cons_of_mem _ (ih h2)

theorem removeKey_length {r : Registry} {k : Name} {e : Entry}
    (h : lookupKey r k = some e) :
    (removeKey r k).length + 1 = r.length := by
  induction r with
  | nil => simp [lookupKey] at h
  | cons q qs ih =>
      by_cases hq : (q.1 == k) = true
      · simp [removeKey, hq]
      · rw [lookupKey] at h
        rw [if_neg (by simpa using hq)] at h
        simp [removeKey, hq, ih h]

theorem collectLine_no_underscore {items : Registry} {fname : Name}
    {i : Nat} {line : Name}
    (h : ∀ p ∈ items, isPrefixL underscoreTok p.1 = false) :
    ∀ p ∈ (collectLine items fname i line).1,
      isPrefixL underscoreTok p.1 = false := by
  intro p hp
  cases hm : isPrefixL moduleTok line with
  | true =>
      cases hu7 : isPrefixL underscoreTok (extractName (line.drop 7)) with
      | true => simp [collectLine, hm, hu7] at hp; exact h p hp
      | false =>
          cases hl : lookupKey items (extractName (line.drop 7)) with
          | some prev => simp [collectLine, hm, hu7, hl] at hp; exact h p hp
          | none =>
              simp [collectLine, hm, hu7, hl] at hp
              rcases hp with h1 | h2
              · exact h p h1
              · rw [h2]; exact hu7
  | false =>
      cases hf : isPrefixL functionTok line with
      | false => simp [collectLine, hm, hf] at hp; exact h p hp
      | true =>
          cases hu9 : isPrefixL underscoreTok (extractName (line.drop 9)) with
          | true => simp [collectLine, hm, hf, hu9] at hp; exact h p hp
          | false =>
              cases hl : lookupKey items (extractName (line.drop 9)) with
              | some prev => simp [collectLine, hm, hf, hu9, hl] at hp; exact h p hp
              | none =>
                  simp [collectLine, hm, hf, hu9, hl] at hp
                  rcases hp with h1 | h2
                  · exact h p h1
                  · rw [h2]; exact hu9

theorem collectLines_no_underscore (ls : List Name) :
    ∀ (items : Registry) (out : List String) (fname : Name) (i : Nat),
      (∀ p ∈ items, isPrefixL underscoreTok p.1 = false) →
      ∀ p ∈ (collectLines items out fname i ls).1,
        isPrefixL underscoreTok p.1 = false := by
  induction ls with
  | nil => intro items out f i h; exact h
  | cons l ls ih =>
      intro items out f i h
      rw [collectLines]
      exact ih _ _ _ _ (collectLine_no_underscore h)

theorem collectFold_no_underscore (files : List (Name × List Name)) :
    ∀ st : Registry × List String,
      (∀ p ∈ st.1, isPrefixL underscoreTok p.1 = false) →
      ∀ p ∈ (files.foldl (fun st f => collectLines st.1 st.2 f.1 0 f.2) st).1,
        isPrefixL underscoreTok p.1 = false := by
  induction files with
  | nil => intro st h; exact h
  | cons f fs ih =>
      intro st h
      exact ih _ (collectLines_no_underscore _ _ _ _ _ h)

theorem itemsOf_no_underscore (src : List (Name × List Name)) :
    ∀ p ∈ itemsOf src, isPrefixL underscoreTok p.1 = false := by
  intro p hp
  exact collectFold_no_underscore _ ([], []) (by simp) p hp

theorem correlateLine_no_underscore {st : CState} {fname : Name} {i : Nat}
    {line : Name}
    (hc : ∀ p ∈ st.covered, isPrefixL underscoreTok p.1 = false)
    (hu : ∀ p ∈ st.uncovered, isPrefixL underscoreTok p.1 = false) :
    (∀ p ∈ (correlateLine st fname i line).covered,
        isPrefixL underscoreTok p.1 = false) ∧
    (∀ p ∈ (correlateLine st fname i line).uncovered,
        isPrefixL underscoreTok p.1 = false) := by
  cases hm : isPrefixL moduleTok line with
  | false =>
      have hst : correlateLine st fname i line = st := by
        simp [correlateLine, hm]
      rw [hst]; exact ⟨hc, hu⟩
  | true =>
      cases ht : isPrefixL testTok (extractName (line.drop 7)) with
      | false =>
          have hst : correlateLine st fname i line = st := by
            simp [correlateLine, hm, ht]
          rw [hst]; exact ⟨hc, hu⟩
      | true =>
          cases hl : lookupKey st.uncovered (targetName (extractName (line.drop 7))) with
          | none =>
              have hst : correlateLine st fname i line = st := by
                simp [correlateLine, hm, ht, hl]
              rw [hst]; exact ⟨hc, hu⟩
          | some e =>
              have h3 : isPrefixL underscoreTok
                  (targetName (extractName (line.drop 7))) = false := by
                simpa using hu _ (lookupKey_mem hl)
              refine ⟨?_, ?_⟩
              · intro p hp
                simp only [correlateLine, hm, ht, hl] at hp
                rcases List.mem_append.mp hp with h1 | h2
                · exact hc p h1
                · have h2' : p = (targetName (extractName (line.drop 7)),
                      ⟨fname, i + 1, e.kind⟩) := List.mem_singleton.mp h2
                  rw [h2']; exact h3
              · intro p hp
                simp only [correlateLine, hm, ht, hl] at hp
                exact hu p (mem_removeKey hp)

theorem correlateLines_no_underscore (ls : List Name) :
    ∀ (st : CState) (fname : Name) (i : Nat),
      (∀ p ∈ st.covered, isPrefixL underscoreTok p.1 = false) →
      (∀ p ∈ st.uncovered, isPrefixL underscoreTok p.1 = false) →
      (∀ p ∈ (correlateLines st fname i ls).covered,
          isPrefixL underscoreTok p.1 = false) ∧
      (∀ p ∈ (correlateLines st fname i ls).uncovered,
          isPrefixL underscoreTok p.1 = false) := by
  induction ls with
  | nil => intro st f i hc hu; exact ⟨hc, hu⟩
  | cons l ls ih =>
      intro st f i hc hu
      rw [correlateLines]
      obtain ⟨hc', hu'⟩ := correlateLine_no_underscore hc hu
      exact ih _ _ _ hc' hu'

theorem correlateFold_no_underscore (files : List (Name × List Name)) :
    ∀ st : CState,
      (∀ p ∈ st.covered, isPrefixL underscoreTok p.1 = false) →
      (∀ p ∈ st.uncovered, isPrefixL underscoreTok p.1 = false) →
      (∀ p ∈ (files.foldl (fun st f => correlateLines st f.1 0 f.2) st).covered,
          isPrefixL underscoreTok p.1 = false) ∧
      (∀ p ∈ (files.foldl (fun st f => correlateLines st f.1 0 f.2) st).uncovered,
          isPrefixL underscoreTok p.1 = false) := by
  induction files with
  | nil => intro st hc hu; exact ⟨hc, hu⟩
  | cons f fs ih =>
      intro st hc hu
      obtain ⟨hc', hu'⟩ := correlateLines_no_underscore f.2 st f.1 0 hc hu
      exact ih _ hc' hu'

theorem corrOf_no_underscore (src tst : List (Name × List Name)) :
    (∀ p ∈ coveredOf src tst, isPrefixL underscoreTok p.1 = false) ∧
    (∀ p ∈ uncoveredOf src tst, isPrefixL underscoreTok p.1 = false) := by
  rw [coveredOf, uncoveredOf, corrOf, correlateAll]
  exact correlateFold_no_underscore _ _ (by simp)
    (fun p hp => itemsOf_no_underscore src p hp)

/-- Claim C5: a qualifying declaration line whose extracted identifier starts
with an underscore changes nothing and prints nothing; moreover no key of
the registry, of the covered map, or of the uncovered map ever starts
with an underscore, so such identifiers appear in no duplicate warning
and contribute to none of the report's counts. -/
theorem C5_underscore_excluded (src tst : List (Name × List Name))
    (items : Registry) (fname : Name) (i : Nat) (line n : Name) :
    ((isPrefixL moduleTok line || isPrefixL functionTok line) = true →
      extractName (line.drop (if isPrefixL moduleTok line then 7 else 9)) = n →
      isPrefixL underscoreTok n = true →
      collectLine items fname i line = (items, [])) ∧
    (∀ p ∈ itemsOf src, isPrefixL underscoreTok p.1 = false) ∧
    (∀ p ∈ coveredOf src tst, isPrefixL underscoreTok p.1 = false) ∧
    (∀ p ∈ uncoveredOf src tst, isPrefixL underscoreTok p.1 = false) := by
  refine ⟨?_, itemsOf_no_underscore src, (corrOf_no_underscore src tst).1,
    (corrOf_no_underscore src tst).2⟩
  intro hq hn hu
  cases hm : isPrefixL moduleTok line with
  | true =>
      simp only [hm, if_true] at hn
      simp [collectLine, hm, hn, hu]
  | false =>
      simp only [hm, Bool.false_eq_true, if_false] at hn
      have hf : isPrefixL functionTok line = true := by
        rw [hm] at hq; simpa using hq
      simp [collectLine, hm, hf, hn, hu]

/-- Witness for `C5_underscore_excluded`: the `_internal` module line is
skipped wholesale, and a real registry key such as `box` has no leading
underscore. -/
theorem C5_underscore_excluded_witness :
    collectLine [] "u.scad".data 0 "module _internal()".data = ([], []) ∧
    isPrefixL underscoreTok
      (("box".data, (⟨"shapes.scad".data, 3, .module⟩ : Entry)).1) = false :=
  ⟨(C5_underscore_excluded [] [] [] "u.scad".data 0 "module _internal()".data
      "_internal".data).1 (by decide) (by decide) (by decide),
   (C5_underscore_excluded shapesSrc shapesTst [] [] 0 [] []).2.1
      ("box".data, ⟨"shapes.scad".data, 3, .module⟩) (by decide)⟩

/-- Claim C4: a qualifying declaration line (of either kind) whose extracted
name is already a key of the registry leaves the registry unchanged and
prints the two duplicate-warning lines, giving the redefinition's
file:line and the original's file:line. -/
theorem C4_duplicate_first_wins (src : List (Name × List Name))
    (fname : Name) (i : Nat) (line n : Name) (k : ItemKind) (prev : Entry)
    (hq : (isPrefixL moduleTok line || isPrefixL functionTok line) = true)
    (hn : extractName (line.drop (if isPrefixL moduleTok line then 7 else 9)) = n)
    (hk : (if isPrefixL moduleTok line then ItemKind.module
           else ItemKind.function) = k)
    (hp : lookupKey (itemsOf src) n = some prev) :
    collectLine (itemsOf src) fname i line =
      (itemsOf src,
       [dupWarn1 k n fname (i + 1), dupWarn2 prev.file prev.line]) := by
  have hu : isPrefixL underscoreTok n = false :=
    itemsOf_no_underscore src (n, prev) (lookupKey_mem hp)
  cases hm : isPrefixL moduleTok line with
  | true =>
      simp only [hm, if_true] at hn hk
      simp [collectLine, hm, hn, hu, hp, hk]
  | false =>
      simp only [hm, Bool.false_eq_true, if_false] at hn hk
      have hf : isPrefixL functionTok line = true := by
        rw [hm] at hq; simpa using hq
      simp [collectLine, hm, hf, hn, hu, hp, hk]

/-- Witness for `C4_duplicate_first_wins`: redefining `box` in
`extra.scad` line 1 warns and keeps the `shapes.scad` entry. -/
theorem C4_duplicate_first_wins_witness :
    collectLine (itemsOf shapesSrc) "extra.scad".data 0
        "module box()".data =
      (itemsOf shapesSrc,
       ["WARNING!!! Module box re-defined at extra.scad:1",
        "           Previously defined at shapes.scad:3"]) :=
  (C4_duplicate_first_wins shapesSrc "extra.scad".data 0
      "module box()".data "box".data .module
      ⟨"shapes.scad".data, 3, .module⟩
      (by decide) (by decide) (by decide) (by decide)).trans (by decide)

/-- Claim C7: a matching test occurrence in a file that is not named
`test_<source_file>` prints the two mismatch-warning lines and still
records the declaration as covered and deletes it from the uncovered
map. -/
theorem C7_mismatch_still_covers (st : CState) (fname : Name) (i : Nat)
    (line : Name) (e : Entry)
    (hm : isPrefixL moduleTok line = true)
    (ht : isPrefixL testTok (extractName (line.drop 7)) = true)
    (he : lookupKey st.uncovered (targetName (extractName (line.drop 7))) =
      some e)
    (hf : (fname == testTok ++ e.file) = false) :
    correlateLine st fname i line =
      { covered := st.covered ++
          [(targetName (extractName (line.drop 7)), ⟨fname, i + 1, e.kind⟩)]
        uncovered := removeKey st.uncovered
          (targetName (extractName (line.drop 7)))
        out := st.out ++
          [misWarn1 e.kind (targetName (extractName (line.drop 7)))
            e.file e.line,
           misWarn2 fname (i + 1)] } := by
  simp [correlateLine, hm, ht, he, hf]

/-- Witness for `C7_mismatch_still_covers`: `box` from `shapes.scad` is
tested in `test_other.scad`, which warns yet covers it. -/
theorem C7_mismatch_still_covers_witness :
    correlateLine
        ⟨[], [("box".data, ⟨"shapes.scad".data, 3, .module⟩)], []⟩
        "test_other.scad".data 0 "module test_box()".data =
      ⟨[("box".data, ⟨"test_other.scad".data, 1, .module⟩)], [],
       ["WARNING!!! Module box defined at shapes.scad:3",
        "           but tested at test_other.scad:1"]⟩ :=
  (C7_mismatch_still_covers
      ⟨[], [("box".data, ⟨"shapes.scad".data, 3, .module⟩)], []⟩
      "test_other.scad".data 0 "module test_box()".data
      ⟨"shapes.scad".data, 3, .module⟩
      (by decide) (by decide) (by decide) (by decide)).trans (by decide)

theorem correlateLine_length (st : CState) (fname : Name) (i : Nat)
    (line : Name) :
    (correlateLine st fname i line).covered.length +
      (correlateLine st fname i line).uncovered.length =
    st.covered.length + st.uncovered.length := by
  cases hm : isPrefixL moduleTok line with
  | false => simp [correlateLine, hm]
  | true =>
      cases ht : isPrefixL testTok (extractName (line.drop 7)) with
      | false => simp [correlateLine, hm, ht]
      | true =>
          cases hl : lookupKey st.uncovered
              (targetName (extractName (line.drop 7))) with
          | none => simp [correlateLine, hm, ht, hl]
          | some e =>
              have hr := removeKey_length hl
              simp only [correlateLine, hm, ht, hl, List.length_append,
                List.length_cons, List.length_nil, if_true]
              omega

theorem correlateLines_length (ls : List Name) :
    ∀ (st : CState) (fname : Name) (i : Nat),
      (correlateLines st fname i ls).covered.length +
        (correlateLines st fname i ls).uncovered.length =
      st.covered.length + st.uncovered.length := by
  induction ls with
  | nil => intro st f i; rfl
  | cons l ls ih =>
      intro st f i
      rw [correlateLines]
      rw [ih]
      exact correlateLine_length st f i l

theorem correlateFold_length (files : List (Name × List Name)) :
    ∀ st : CState,
      (files.foldl (fun st f => correlateLines st f.1 0 f.2) st).covered.length +
        (files.foldl (fun st f => correlateLines st f.1 0 f.2) st).uncovered.length =
      st.covered.length + st.uncovered.length := by
  induction files with
  | nil => intro st; rfl
  | cons f fs ih =>
      intro st
      rw [List.foldl_cons, ih]
      exact correlateLines_length f.2 st f.1 0

/-- Claim C2: after the correlation phase, on every pair of input
directories, the covered and uncovered counts sum to the registry's
total count. -/
theorem C2_covered_uncovered_partition (src tst : List (Name × List Name)) :
    (coveredOf src tst).length + (uncoveredOf src tst).length =
      (itemsOf src).length := by
  rw [coveredOf, uncoveredOf, corrOf, correlateAll]
  simpa using correlateFold_length
    (tst.filter fun f => isPrefixL testTok f.1 && endsWithL scadExt f.1)
    ⟨[], itemsOf src, collectOut src⟩

theorem collectLine_nil {items : Registry} {fname : Name} {i : Nat}
    {line : Name} (h : (collectLine items fname i line).1 = []) :
    items = [] ∧ (collectLine items fname i line).2 = [] := by
  cases hm : isPrefixL moduleTok line with
  | true =>
      cases hu7 : isPrefixL underscoreTok (extractName (line.drop 7)) with
      | true =>
          simp [collectLine, hm, hu7] at h ⊢
          exact h
      | false =>
          cases hl : lookupKey items (extractName (line.drop 7)) with
          | some prev =>
              simp [collectLine, hm, hu7, hl] at h
              rw [h] at hl
              simp [lookupKey] at hl
          | none =>
              simp [collectLine, hm, hu7, hl] at h
  | false =>
      cases hf : isPrefixL functionTok line with
      | false =>
          simp [collectLine, hm, hf] at h ⊢
          exact h
      | true =>
          cases hu9 : isPrefixL underscoreTok (extractName (line.drop 9)) with
          | true =>
              simp [collectLine, hm, hf, hu9] at h ⊢
              exact h
          | false =>
              cases hl : lookupKey items (extractName (line.drop 9)) with
              | some prev =>
                  simp [collectLine, hm, hf, hu9, hl] at h
                  rw [h] at hl
                  simp [lookupKey] at hl
              | none =>
                  simp [collectLine, hm, hf, hu9, hl] at h

theorem collectLines_nil (ls : List Name) :
    ∀ (items : Registry) (out : List String) (fname : Name) (i : Nat),
      (collectLines items out fname i ls).1 = [] →
      items = [] ∧ (collectLines items out fname i ls).2 = out := by
  induction ls with
  | nil => intro items out f i h; exact ⟨h, rfl⟩
  | cons l ls ih =>
      intro items out f i h
      rw [collectLines] at h ⊢
      obtain ⟨h1, h2⟩ := ih _ _ _ _ h
      obtain ⟨h3, h4⟩ := collectLine_nil h1
      exact ⟨h3, by rw [h2, h4, List.append_nil]⟩

theorem collectFold_nil (files : List (Name × List Name)) :
    ∀ st : Registry × List String,
      (files.foldl (fun st f => collectLines st.1 st.2 f.1 0 f.2) st).1 = [] →
      st.1 = [] ∧
      (files.foldl (fun st f => collectLines st.1 st.2 f.1 0 f.2) st).2 = st.2 := by
  induction files with
  | nil => intro st h; exact ⟨h, rfl⟩
  | cons f fs ih =>
      intro st h
      rw [List.foldl_cons] at h ⊢
      obtain ⟨h1, h2⟩ := ih _ h
      obtain ⟨h3, h4⟩ := collectLines_nil _ _ _ _ _ h1
      exact ⟨h3, by rw [h2, h4]⟩

theorem collectOut_nil {src : List (Name × List Name)}
    (h : itemsOf src = []) : collectOut src = [] := by
  rw [itemsOf, collectAll] at h
  rw [collectOut, collectAll]
  exact (collectFold_nil _ _ h).2

theorem correlateLine_uncovered_nil {st : CState} (h : st.uncovered = [])
    (fname : Name) (i : Nat) (line : Name) :
    correlateLine st fname i line = st := by
  cases hm : isPrefixL moduleTok line with
  | false => simp [correlateLine, hm]
  | true =>
      cases ht : isPrefixL testTok (extractName (line.drop 7)) with
      | false => simp [correlateLine, hm, ht]
      | true => simp [correlateLine, hm, ht, h, lookupKey]

theorem correlateLines_uncovered_nil (ls : List Name) :
    ∀ (st : CState) (fname : Name) (i : Nat), st.uncovered = [] →
      correlateLines st fname i ls = st := by
  induction ls with
  | nil => intro st f i _; rfl
  | cons l ls ih =>
      intro st f i h
      rw [correlateLines, correlateLine_uncovered_nil h]
      exact ih st f _ h

theorem correlateFold_uncovered_nil (files : List (Name × List Name)) :
    ∀ st : CState, st.uncovered = [] →
      files.foldl (fun st f => correlateLines st f.1 0 f.2) st = st := by
  induction files with
  | nil => intro st _; rfl
  | cons f fs ih =>
      intro st h
      rw [List.foldl_cons, correlateLines_uncovered_nil f.2 st f.1 0 h]
      exact ih st h

/-- Claim C10: with an empty registry the `NOT COVERED:` header (followed by
the then-empty uncovered section, and by no warnings) is the entire
output, after which the run aborts on the aggregate division. -/
theorem C10_header_printed_on_fault (src tst : List (Name × List Name))
    (h : itemsOf src = []) :
    runProgram src tst = (["NOT COVERED:"], false) := by
  have hout : collectOut src = [] := collectOut_nil h
  have hcorr : corrOf src tst = ⟨[], [], []⟩ := by
    rw [corrOf, correlateAll, hout, h]
    exact correlateFold_uncovered_nil _ _ rfl
  rw [runProgram, hcorr, h]
  rfl

/-- Witness for `C10_header_printed_on_fault`: two empty directories. -/
theorem C10_header_printed_on_fault_witness :
    runProgram [] [] = (["NOT COVERED:"], false) :=
  C10_header_printed_on_fault [] [] rfl

theorem dropWhile_append_single {p : Char → Bool} {x : Char}
    (hx : p x = false) (l : List Char) :
    List.dropWhile p (l ++ [x]) = List.dropWhile p l ++ [x] := by
  induction l with
  | nil => simp [List.dropWhile, hx]
  | cons c cs ih =>
      cases hc : p c with
      | true => simp [List.dropWhile_cons, hc, ih]
      | false => simp [List.dropWhile_cons, hc]

theorem pyStrip_lparen_head (t : List Char) :
    ∃ r, pyStrip ('(' :: t) = '(' :: r := by
  rw [pyStrip]
  have h1 : List.dropWhile isPySpace ('(' :: t) = '(' :: t := by
    rw [List.dropWhile_cons]
    simp [isPySpace]
  rw [h1, List.reverse_cons, dropWhile_append_single (by decide)]
  exact ⟨(List.dropWhile isPySpace t.reverse).reverse, by simp⟩

/-- Claim C9: a declaration line whose text after the marker is empty or
starts with `(` yields the empty-string identifier, which is tracked
normally: on the `noname` example it enters the registry, counts toward
the total, and is covered by a `module test_(...)` test line. -/
theorem C9_empty_name_tracked (r : Name) :
    (r = [] ∨ r.head? = some '(' → extractName r = []) ∧
    itemsOf nonameSrc = [([], ⟨"noname.scad".data, 1, .module⟩)] ∧
    coveredOf nonameSrc nonameTst =
      [([], ⟨"test_noname.scad".data, 1, .module⟩)] ∧
    runProgram nonameSrc nonameTst =
      (["NOT COVERED:", "Total coverage: 1 of 1 items (100.00%)"], true) := by
  refine ⟨?_, by decide, by decide, by decide⟩
  rintro (rfl | hh)
  · rfl
  · cases r with
    | nil => simp at hh
    | cons c t =>
        have hc : c = '(' := by simpa using hh
        subst hc
        obtain ⟨x, hx⟩ := pyStrip_lparen_head t
        rw [extractName, hx]
        simp [List.takeWhile_cons, pyStrip, List.dropWhile]

/-- Witness for `C9_empty_name_tracked` at the marker text `(...)`. -/
theorem C9_empty_name_tracked_witness :
    extractName "(...)".data = [] :=
  (C9_empty_name_tracked "(...)".data).1 (Or.inr (by decide))

theorem leL_total : ∀ a b : List Char, (leL a b || leL b a) = true := by
  intro a
  induction a with
  | nil => intro b; simp [leL]
  | cons x xs ih =>
      intro b
      cases b with
      | nil => simp [leL]
      | cons y ys =>
          by_cases hxy : x.toNat < y.toNat
          · simp [leL, hxy]
          · by_cases hyx : y.toNat < x.toNat
            · simp [leL, hxy, hyx]
            · simp [leL, hxy, hyx, ih ys]

theorem leL_trans : ∀ a b c : List Char,
    leL a b = true → leL b c = true → leL a c = true := by
  intro a
  induction a with
  | nil => intro b c _ _; rfl
  | cons x xs ih =>
      intro b c hab hbc
      cases b with
      | nil => simp [leL] at hab
      | cons y ys =>
          cases c with
          | nil => simp [leL] at hbc
          | cons z zs =>
              rw [leL] at hab hbc ⊢
              rcases Nat.lt_trichotomy x.toNat y.toNat with h1 | h1 | h1 <;>
                rcases Nat.lt_trichotomy y.toNat z.toNat with h2 | h2 | h2 <;>
                first
                  | (rw [if_neg (by omega), if_pos (by omega)] at hab
                     simp at hab)
                  | (rw [if_neg (by omega), if_pos (by omega)] at hbc
                     simp at hbc)
                  | simp [show x.toNat < z.toNat by omega]
                  | (rw [if_neg (by omega), if_neg (by omega)] at hab hbc ⊢
                     exact ih ys zs hab hbc)

theorem mem_stableInsert (le : α → α → Bool) (a x : α) (l : List α) :
    x ∈ stableInsert le a l ↔ x = a ∨ x ∈ l := by
  induction l with
  | nil => simp [stableInsert]
  | cons b bs ih =>
      rw [stableInsert]
      split
      · rw [List.mem_cons, ih, List.mem_cons]
        tauto
      · rw [List.mem_cons, List.mem_cons]

theorem pairwise_stableInsert (le : α → α → Bool)
    (total : ∀ a b, (le a b || le b a) = true)
    (trans : ∀ a b c, le a b = true → le b c = true → le a c = true)
    (a : α) (l : List α)
    (h : l.Pairwise (fun x y => le x y = true)) :
    (stableInsert le a l).Pairwise (fun x y => le x y = true) := by
  induction l with
  | nil => simp [stableInsert]
  | cons b bs ih =>
      rw [List.pairwise_cons] at h
      obtain ⟨hb, hbs⟩ := h
      rw [stableInsert]
      cases hba : le b a with
      | true =>
          rw [if_pos rfl, List.pairwise_cons]
          refine ⟨?_, ih hbs⟩
          intro y hy
          rcases (mem_stableInsert le a y bs).mp hy with rfl | hy'
          · exact hba
          · exact hb y hy'
      | false =>
          rw [if_neg (by simp), List.pairwise_cons]
          have hab : le a b = true := by
            have ht := total a b
            rw [hba] at ht
            simpa using ht
          refine ⟨?_, List.pairwise_cons.mpr ⟨hb, hbs⟩⟩
          intro y hy
          rcases List.mem_cons.mp hy with rfl | hy'
          · exact hab
          · exact trans a b y hab (hb y hy')

theorem pairwise_pySorted_aux (le : α → α → Bool)
    (total : ∀ a b, (le a b || le b a) = true)
    (trans : ∀ a b c, le a b = true → le b c = true → le a c = true) :
    ∀ (l acc : List α), acc.Pairwise (fun x y => le x y = true) →
      (l.foldl (fun acc x => stableInsert le x acc) acc).Pairwise
        (fun x y => le x y = true) := by
  intro l
  induction l with
  | nil => intro acc h; exact h
  | cons x xs ih =>
      intro acc h
      exact ih _ (pairwise_stableInsert le total trans x acc h)

theorem pairwise_pySorted (le : α → α → Bool)
    (total : ∀ a b, (le a b || le b a) = true)
    (trans : ∀ a b c, le a b = true → le b c = true → le a c = true)
    (l : List α) :
    (pySorted le l).Pairwise (fun x y => le x y = true) :=
  pairwise_pySorted_aux le total trans l [] (by simp)

theorem mem_addToGroup {ubf : Groups} {f : Name} {it : Name × ItemKind}
    {g : Name × List (Name × ItemKind)} (h : g ∈ addToGroup ubf f it) :
    g ∈ ubf ∨ (∃ g0 ∈ ubf, g = (g0.1, g0.2 ++ [it])) ∨ g = (f, [it]) := by
  induction ubf with
  | nil =>
      right; right
      simpa [addToGroup] using h
  | cons q qs ih =>
      rw [addToGroup] at h
      split at h
      · rcases List.mem_cons.mp h with h1 | h2
        · right; left
          exact ⟨q, List.mem_cons_self q qs, h1⟩
        · left; exact List.mem_cons_of_mem _ h2
      · rcases List.mem_cons.mp h with h1 | h2
        · left; rw [h1]; exact List.mem_cons_self q qs
        · rcases ih h2 with h3 | ⟨g0, hg0, e⟩ | h3
          · left; exact List.mem_cons_of_mem _ h3
          · right; left; exact ⟨g0, List.mem_cons_of_mem _ hg0, e⟩
          · right; right; exact h3

theorem lookupGroup_mem {ubf : Groups} {f : Name}
    {l : List (Name × ItemKind)} (h : lookupGroup ubf f = some l) :
    (f, l) ∈ ubf := by
  induction ubf with
  | nil => simp [lookupGroup] at h
  | cons g gs ih =>
      rw [lookupGroup] at h
      split at h
      · next heq =>
          have h1 : g.1 = f := by simpa using heq
          have h2 : g.2 = l := by simpa using h
          exact List.mem_cons.mpr (Or.inl (by cases g; simp_all))
      · exact List.mem_cons_of_mem _ (ih h)

theorem groups_fold_sorted (uncovered : Registry) :
    ∀ (ns : List Name) (ubf : Groups),
      ns.Pairwise (fun x y => leL x y = true) →
      (∀ g ∈ ubf, g.2.Pairwise (fun x y => leL x.1 y.1 = true)) →
      (∀ g ∈ ubf, ∀ x ∈ g.2, ∀ n ∈ ns, leL x.1 n = true) →
      ∀ g ∈ ns.foldl (fun ubf n =>
          match lookupKey uncovered n with
          | some e => addToGroup ubf e.file (n, e.kind)
          | none => ubf) ubf,
        g.2.Pairwise (fun x y => leL x.1 y.1 = true) := by
  intro ns
  induction ns with
  | nil => intro ubf _ h2 _ g hg; exact h2 g hg
  | cons n ns ih =>
      intro ubf h1 h2 h3 g hg
      rw [List.foldl_cons] at hg
      rw [List.pairwise_cons] at h1
      obtain ⟨hn, h1'⟩ := h1
      cases hl : lookupKey uncovered n with
      | none =>
          simp only [hl] at hg
          exact ih ubf h1' h2
            (fun g' hg' x hx m hm => h3 g' hg' x hx m (List.mem_cons_of_mem _ hm))
            g hg
      | some e =>
          simp only [hl] at hg
          refine ih (addToGroup ubf e.file (n, e.kind)) h1' ?_ ?_ g hg
          · intro g' hg'
            rcases mem_addToGroup hg' with h4 | ⟨g0, hg0, he⟩ | h4
            · exact h2 g' h4
            · rw [he]
              rw [List.pairwise_append]
              refine ⟨h2 g0 hg0, by simp, ?_⟩
              intro x hx y hy
              rw [List.mem_singleton.mp hy]
              exact h3 g0 hg0 x hx n (List.mem_cons_self n ns)
            · rw [h4]; simp
          · intro g' hg' x hx m hm
            rcases mem_addToGroup hg' with h4 | ⟨g0, hg0, he⟩ | h4
            · exact h3 g' h4 x hx m (List.mem_cons_of_mem _ hm)
            · rw [he] at hx
              rcases List.mem_append.mp hx with h5 | h5
              · exact h3 g0 hg0 x h5 m (List.mem_cons_of_mem _ hm)
              · rw [List.mem_singleton.mp h5]
                exact hn m hm
            · rw [h4] at hx
              rw [List.mem_singleton.mp hx]
              exact hn m hm

theorem bleFst_total (a b : Nat × Name) :
    (Nat.ble a.1 b.1 || Nat.ble b.1 a.1) = true := by
  simp [Nat.ble_eq]
  omega

theorem bleFst_trans (a b c : Nat × Name) (h1 : Nat.ble a.1 b.1 = true)
    (h2 : Nat.ble b.1 c.1 = true) : Nat.ble a.1 c.1 = true := by
  simp [Nat.ble_eq] at h1 h2 ⊢
  omega

/-- Claim C8: the report's per-file groups come out sorted ascending by
uncovered-item count, and every printed group's items are sorted
ascending by declaration name. -/
theorem C8_report_sorted (src tst : List (Name × List Name)) :
    (sortedMostest (buildGroups (uncoveredOf src tst))).Pairwise
      (fun a b => a.1 ≤ b.1) ∧
    (∀ f l, lookupGroup (buildGroups (uncoveredOf src tst)) f = some l →
      l.Pairwise (fun x y => leL x.1 y.1 = true)) := by
  constructor
  · have hp := pairwise_pySorted (fun a b : Nat × Name => Nat.ble a.1 b.1)
      bleFst_total bleFst_trans (mostestOf (buildGroups (uncoveredOf src tst)))
    rw [sortedMostest]
    exact hp.imp (fun h => by simpa [Nat.ble_eq] using h)
  · intro f l hl
    have hmem : (f, l) ∈ buildGroups (uncoveredOf src tst) := lookupGroup_mem hl
    rw [buildGroups] at hmem
    exact groups_fold_sorted (uncoveredOf src tst)
      (pySorted leL ((uncoveredOf src tst).map Prod.fst)) []
      (pairwise_pySorted leL leL_total leL_trans _)
      (fun g hg => absurd hg (List.not_mem_nil g))
      (fun g hg => absurd hg (List.not_mem_nil g)) (f, l) hmem

/-- Witness for `C8_report_sorted` on the `shapes` example's single
uncovered group. -/
theorem C8_report_sorted_witness :
    lookupGroup (buildGroups (uncoveredOf shapesSrc shapesTst))
        "shapes.scad".data = some [("area".data, ItemKind.function)] ∧
    List.Pairwise (fun x y : Name × ItemKind => leL x.1 y.1 = true)
      [("area".data, ItemKind.function)] :=
  ⟨by decide, (C8_report_sorted shapesSrc shapesTst).2 "shapes.scad".data
      [("area".data, ItemKind.function)] (by decide)⟩

end Coverage
